import Mathlib

/-
Verification of the interactive-menu core of the conversation-history viewer
(`claude-history.py`). The definitions below are a shallow embedding of the
source: the raw key reader `get_key`, the paginated menu state machine of
`display_menu`, and the conversation listing `get_conversations`.  Input is
modelled as an explicit list of characters (a `read(n)` that hits end of file
returns the remaining characters, as in Python); terminal attributes are
threaded explicitly; Python integers are `Int`; Python floor division `//` is
`Int.fdiv`.
-/

namespace ClaudeHistory

/-- Embedding of `InteractiveMenu.get_key` (lines 42-56): read one character
from stdin; if it is the escape byte, read exactly two more characters and
append them.  Returns the key string and the rest of the stream.  A read at
end of file returns the characters that remain (possibly none), as Python's
`read` does. -/
def get_key (stdin : List Char) : String × List Char :=
  let key := stdin.take 1
  let rest := stdin.drop 1
  if key = ['\x1b'] then
    (String.mk (key ++ rest.take 2), rest.drop 2)
  else
    (String.mk key, rest)

/-- The key events distinguished by the `elif` chain of `display_menu`
(lines 113-140). -/
inductive KeyEvent where
  | up
  | down
  | pageUp
  | pageDown
  | enter
  | quit
  | unrecognized
deriving DecidableEq, Repr

/-- Classification of a key string by the `elif` chain of `display_menu`
(lines 113-140), read off in source order: a key string matching none of the
comparisons falls through the chain and is ignored. -/
def decodeKey (key : String) : KeyEvent :=
  if key = "\x1b[A" then KeyEvent.up
  else if key = "\x1b[B" then KeyEvent.down
  else if key = "\x1b[5~" then KeyEvent.pageUp
  else if key = "\x1b[6~" then KeyEvent.pageDown
  else if key = "\r" ∨ key = "\n" then KeyEvent.enter
  else if key = "q" ∨ key = "\x03" then KeyEvent.quit
  else KeyEvent.unrecognized

/-- The mutable selection state of `display_menu`: `self.selected_index` and
`current_page` (lines 64-65). -/
structure MenuState where
  selected_index : Int
  current_page : Int
deriving DecidableEq, Repr

/-- The per-invocation menu configuration fixed by lines 66-74 of
`display_menu`: `total_items`, the effective `paginate` flag, the effective
`items_per_page`, and `total_pages`. -/
structure MenuConfig where
  total_items : Int
  paginate : Bool
  items_per_page : Int
  total_pages : Int
deriving DecidableEq, Repr

/-- Embedding of lines 66-74 of `display_menu`: pagination setup.  When
`paginate` is requested and `total_items > items_per_page`, `total_pages` is
the ceiling division `(total_items + items_per_page - 1) // items_per_page`
(Python `//` is floor division, `Int.fdiv`); otherwise pagination is
disabled, `total_pages := 1` and `items_per_page := total_items`. -/
def setupMenu (paginate : Bool) (items_per_page : Int) (items : List String) : MenuConfig :=
  let total_items : Int := items.length
  if paginate ∧ total_items > items_per_page then
    ⟨total_items, true, items_per_page,
      (total_items + items_per_page - 1).fdiv items_per_page⟩
  else
    ⟨total_items, false, total_items, 1⟩

/-- Outcome of one iteration of the `while True` loop of `display_menu`:
continue looping with a new state, `return` an index (line 136), or call
`sys.exit` after printing (lines 138-140). -/
inductive StepResult where
  | cont (s : MenuState)
  | select (idx : Int)
  | exitProcess (printed : List String) (code : Int)
deriving DecidableEq, Repr

/-- True exactly when a step result ends the process (models `sys.exit`). -/
def endsProcess : StepResult → Bool
  | StepResult.exitProcess _ _ => true
  | _ => false

/-- Embedding of one iteration of the key-handling part of `display_menu`
(lines 97-140): `start_idx` and `end_idx` are recomputed from the current
page, then the key string is matched by the `elif` chain.  Up and Down move
within the page or across a page boundary; Page Up / Page Down move between
pages when pagination is on; Enter returns the selected index; `q` or the
interrupt byte clears the screen, prints the farewell line and exits the
process with status 0; any other key leaves the state unchanged. -/
def menuStep (c : MenuConfig) (s : MenuState) (key : String) : StepResult :=
  let start_idx := s.current_page * c.items_per_page
  let end_idx := min (start_idx + c.items_per_page) c.total_items
  if key = "\x1b[A" then
    if s.selected_index > start_idx then
      StepResult.cont ⟨s.selected_index - 1, s.current_page⟩
    else if s.current_page > 0 then
      let current_page := s.current_page - 1
      StepResult.cont
        ⟨min ((current_page + 1) * c.items_per_page - 1) (c.total_items - 1), current_page⟩
    else StepResult.cont s
  else if key = "\x1b[B" then
    if s.selected_index < min (end_idx - 1) (c.total_items - 1) then
      StepResult.cont ⟨s.selected_index + 1, s.current_page⟩
    else if s.current_page < c.total_pages - 1 then
      let current_page := s.current_page + 1
      StepResult.cont ⟨current_page * c.items_per_page, current_page⟩
    else StepResult.cont s
  else if key = "\x1b[5~" then
    if c.paginate ∧ s.current_page > 0 then
      let current_page := s.current_page - 1
      StepResult.cont ⟨current_page * c.items_per_page, current_page⟩
    else StepResult.cont s
  else if key = "\x1b[6~" then
    if c.paginate ∧ s.current_page < c.total_pages - 1 then
      let current_page := s.current_page + 1
      StepResult.cont ⟨current_page * c.items_per_page, current_page⟩
    else StepResult.cont s
  else if key = "\r" ∨ key = "\n" then
    StepResult.select s.selected_index
  else if key = "q" ∨ key = "\x03" then
    StepResult.exitProcess (["Goodbye!"]) 0
  else StepResult.cont s

/-- The state after one loop iteration on `key`: the new state when the loop
continues, the unchanged state when it terminates. -/
def stepState (c : MenuConfig) (s : MenuState) (key : String) : MenuState :=
  match menuStep c s key with
  | StepResult.cont s2 => s2
  | _ => s

/-- Folding `stepState` over a list of key strings: the selection state after
that sequence of key events. -/
def runKeys (c : MenuConfig) (s : MenuState) (keys : List String) : MenuState :=
  keys.foldl (stepState c) s

/-- The MenuState invariant: the current page is in range and the selected
index lies within the current page's slice
`[current_page * items_per_page, min ((current_page+1) * items_per_page) total_items)`. -/
def MenuInv (c : MenuConfig) (s : MenuState) : Prop :=
  0 ≤ s.current_page ∧ s.current_page < c.total_pages ∧
  s.current_page * c.items_per_page ≤ s.selected_index ∧
  s.selected_index < min ((s.current_page + 1) * c.items_per_page) c.total_items

instance (c : MenuConfig) (s : MenuState) : Decidable (MenuInv c s) := by
  unfold MenuInv
  infer_instance

/-- Well-formedness of a menu configuration, true of every configuration
`setupMenu` builds from a non-empty item list and a positive requested page
size: at least one item, a positive page size, and `total_pages` is the
ceiling of `total_items / items_per_page` (characterised by the two product
bounds). -/
def ConfigWF (c : MenuConfig) : Prop :=
  1 ≤ c.items_per_page ∧ 1 ≤ c.total_items ∧
  c.total_items ≤ c.total_pages * c.items_per_page ∧
  (c.total_pages - 1) * c.items_per_page < c.total_items

/-- Embedding of `InteractiveMenu.get_key`'s terminal-mode handling
(lines 44-56) with the terminal attributes threaded explicitly: capture the
old settings (`termios.tcgetattr`), switch to raw mode (`tty.setraw`), run
the byte-read step — which may return a key or raise, and may itself change
the attributes — and, as the `finally` block does, set the attributes back
to the captured `old_settings` before the call returns or the exception
propagates.  The read step is an arbitrary function so that every completion
of the read (success, error, interrupt) is covered. -/
def get_key_term {τ : Type} (setraw : τ → τ)
    (readStep : τ → Except String String × τ) (fdAttrs : τ) :
    Except String String × τ :=
  let old_settings := fdAttrs
  let raw := setraw fdAttrs
  let result := readStep raw
  (result.1, old_settings)

/-- A conversation file as `get_conversations` sees it: its file name (a
Python string, modelled as a list of characters) and its modification time
(`st_mtime`; modelled as an integer, which preserves the ordering used by
the sort). -/
structure ConvFile where
  name : List Char
  mtime : Int
deriving DecidableEq, Repr

/-- The sort relation of line 255: descending by the third tuple component
(`key=lambda x: x[2], reverse=True`). -/
def byMtimeDesc (a b : List Char × ConvFile × Int) : Prop := b.2.2 ≤ a.2.2

instance : DecidableRel byMtimeDesc :=
  fun a b => inferInstanceAs (Decidable (b.2.2 ≤ a.2.2))

instance : IsTotal (List Char × ConvFile × Int) byMtimeDesc :=
  ⟨fun a b => le_total b.2.2 a.2.2⟩

instance : IsTrans (List Char × ConvFile × Int) byMtimeDesc :=
  ⟨fun _ _ _ hab hbc => le_trans hbc hab⟩

/-- Embedding of `ClaudeHistoryViewer.get_conversations` (lines 239-257):
skip files whose name starts with a dot (`name.startswith(".")` on character
lists is `List.isPrefixOf`), label each remaining file with its formatted
date and name, sort by modification time newest first (a stable sort, as
Python's), and return the (label, file) pairs.  The date formatting
`strftime` is an arbitrary function parameter: its output does not affect
the ordering. -/
def get_conversations (dateStr : Int → List Char) (files : List ConvFile) :
    List (List Char × ConvFile) :=
  let conversations :=
    (files.filter (fun f => !(List.isPrefixOf ((".").data) f.name))).map
      (fun f => (dateStr f.mtime ++ (" - ").data ++ f.name, f, f.mtime))
  let sorted := conversations.insertionSort byMtimeDesc
  sorted.map (fun x => (x.1, x.2.1))

/-- Every configuration built by `setupMenu` from a non-empty item list and a
positive requested page size is well-formed. -/
theorem setupMenu_wf (paginate : Bool) (ipp : Int) (items : List String)
    (hne : items ≠ []) (hipp : 0 < ipp) : ConfigWF (setupMenu paginate ipp items) := by
  have hlen : items.length ≠ 0 := fun h => hne (List.eq_nil_of_length_eq_zero h)
  have htot : (1 : Int) ≤ (items.length : Int) := by omega
  by_cases hcond : paginate = true ∧ ((items.length : Int) > ipp)
  · have hcfg : setupMenu paginate ipp items
        = ⟨(items.length : Int), true, ipp,
            ((items.length : Int) + ipp - 1).fdiv ipp⟩ := by
      unfold setupMenu
      dsimp only
      rw [if_pos hcond]
    rw [hcfg]
    unfold ConfigWF
    dsimp only
    rw [Int.fdiv_eq_ediv _ (le_of_lt hipp)]
    have hdm := Int.ediv_add_emod ((items.length : Int) + ipp - 1) ipp
    have hr0 : 0 ≤ ((items.length : Int) + ipp - 1) % ipp :=
      Int.emod_nonneg _ (ne_of_gt hipp)
    have hr1 : ((items.length : Int) + ipp - 1) % ipp < ipp := Int.emod_lt_of_pos _ hipp
    have hc1 : (((items.length : Int) + ipp - 1) / ipp) * ipp
        = ipp * (((items.length : Int) + ipp - 1) / ipp) := mul_comm _ _
    have hc2 : (((items.length : Int) + ipp - 1) / ipp - 1) * ipp
        = ipp * (((items.length : Int) + ipp - 1) / ipp) - ipp := by ring
    refine ⟨hipp, htot, ?_, ?_⟩ <;> omega
  · have hcfg : setupMenu paginate ipp items
        = ⟨(items.length : Int), false, (items.length : Int), 1⟩ := by
      unfold setupMenu
      dsimp only
      rw [if_neg hcond]
    rw [hcfg]
    unfold ConfigWF
    dsimp only
    exact ⟨htot, htot, by omega, by omega⟩

/-- A well-formed configuration has at least one page. -/
theorem configWF_total_pages_pos {c : MenuConfig} (hc : ConfigWF c) : 1 ≤ c.total_pages := by
  obtain ⟨hipp, htot, hub, hlb⟩ := hc
  by_contra h
  push_neg at h
  have := mul_le_mul_of_nonneg_right (show c.total_pages ≤ 0 by omega)
    (show (0 : Int) ≤ c.items_per_page by omega)
  rw [zero_mul] at this
  omega

/-- The fresh state of a menu invocation (index 0, page 0) satisfies the menu
invariant. -/
theorem menuInv_initial {c : MenuConfig} (hc : ConfigWF c) : MenuInv c ⟨0, 0⟩ := by
  have hpos := configWF_total_pages_pos hc
  obtain ⟨hipp, htot, hub, hlb⟩ := hc
  simp only [MenuInv]
  have e0 : (0 + 1) * c.items_per_page = c.items_per_page := by ring
  refine ⟨by omega, by omega, by omega, by omega⟩

/-- One loop iteration of `display_menu` preserves the menu invariant, for
every key string. -/
theorem menuInv_stepState {c : MenuConfig} (hc : ConfigWF c) {s : MenuState}
    (hs : MenuInv c s) (key : String) : MenuInv c (stepState c s key) := by
  obtain ⟨hipp, htot, hub, hlb⟩ := hc
  obtain ⟨h0, h1, h2, h3⟩ := hs
  have e1 : (s.current_page + 1) * c.items_per_page
      = s.current_page * c.items_per_page + c.items_per_page := by ring
  have e2 : (s.current_page - 1) * c.items_per_page
      = s.current_page * c.items_per_page - c.items_per_page := by ring
  have e3 : c.total_pages * c.items_per_page
      = (c.total_pages - 1) * c.items_per_page + c.items_per_page := by ring
  have e4 : (s.current_page - 1 + 1) * c.items_per_page
      = s.current_page * c.items_per_page := by ring
  have e5 : (s.current_page + 1 + 1) * c.items_per_page
      = (s.current_page + 1) * c.items_per_page + c.items_per_page := by ring
  have g1 : s.current_page * c.items_per_page ≤ (c.total_pages - 1) * c.items_per_page :=
    mul_le_mul_of_nonneg_right (by omega) (by omega)
  have g2 : s.current_page < c.total_pages - 1 →
      (s.current_page + 1) * c.items_per_page ≤ (c.total_pages - 1) * c.items_per_page :=
    fun h => mul_le_mul_of_nonneg_right (by omega) (by omega)
  unfold stepState menuStep
  dsimp only
  split
  · rename_i s2 heq
    split_ifs at heq
    all_goals
      injection heq with hinj <;>
        (subst hinj
         first
           | exact ⟨h0, h1, h2, h3⟩
           | (simp only [MenuInv]
              omega))
  · exact ⟨h0, h1, h2, h3⟩

/-- The menu invariant holds after any sequence of key events from a state
that satisfies it. -/
theorem menuInv_runKeys {c : MenuConfig} (hc : ConfigWF c) {s : MenuState}
    (hs : MenuInv c s) (keys : List String) : MenuInv c (runKeys c s keys) := by
  induction keys generalizing s with
  | nil => exact hs
  | cons k ks ih => exact ih (menuInv_stepState hc hs k)

/-- In any state satisfying the invariant of a well-formed configuration, the
selected index is inside `[0, total_items - 1]`. -/
theorem menuInv_sel_bounds {c : MenuConfig} (hc : ConfigWF c) {s : MenuState}
    (hs : MenuInv c s) :
    0 ≤ s.selected_index ∧ s.selected_index ≤ c.total_items - 1 := by
  obtain ⟨hipp, htot, hub, hlb⟩ := hc
  obtain ⟨h0, h1, h2, h3⟩ := hs
  have hnn : 0 ≤ s.current_page * c.items_per_page := mul_nonneg h0 (by omega)
  omega

/-- Reduction of `stepState` on the Up-arrow key string. -/
theorem stepState_up (c : MenuConfig) (s : MenuState) :
    stepState c s ("\x1b[A")
      = if s.selected_index > s.current_page * c.items_per_page then
          (⟨s.selected_index - 1, s.current_page⟩ : MenuState)
        else if s.current_page > 0 then
          ⟨min ((s.current_page - 1 + 1) * c.items_per_page - 1) (c.total_items - 1),
            s.current_page - 1⟩
        else s := by
  unfold stepState menuStep
  dsimp only
  rw [if_pos rfl]
  split_ifs <;> rfl

/-- Reduction of `stepState` on the Down-arrow key string. -/
theorem stepState_down (c : MenuConfig) (s : MenuState) :
    stepState c s ("\x1b[B")
      = if s.selected_index <
            min (min (s.current_page * c.items_per_page + c.items_per_page) c.total_items - 1)
              (c.total_items - 1) then
          (⟨s.selected_index + 1, s.current_page⟩ : MenuState)
        else if s.current_page < c.total_pages - 1 then
          ⟨(s.current_page + 1) * c.items_per_page, s.current_page + 1⟩
        else s := by
  unfold stepState menuStep
  dsimp only
  rw [if_neg (by decide), if_pos rfl]
  split_ifs <;> rfl

/-- Reduction of `stepState` on the Page Up key string. -/
theorem stepState_pageUp (c : MenuConfig) (s : MenuState) :
    stepState c s ("\x1b[5~")
      = if c.paginate = true ∧ s.current_page > 0 then
          (⟨(s.current_page - 1) * c.items_per_page, s.current_page - 1⟩ : MenuState)
        else s := by
  unfold stepState menuStep
  dsimp only
  rw [if_neg (by decide), if_neg (by decide), if_pos rfl]
  split_ifs <;> rfl

/-- Reduction of `stepState` on the Page Down key string. -/
theorem stepState_pageDown (c : MenuConfig) (s : MenuState) :
    stepState c s ("\x1b[6~")
      = if c.paginate = true ∧ s.current_page < c.total_pages - 1 then
          (⟨(s.current_page + 1) * c.items_per_page, s.current_page + 1⟩ : MenuState)
        else s := by
  unfold stepState menuStep
  dsimp only
  rw [if_neg (by decide), if_neg (by decide), if_neg (by decide), if_pos rfl]
  split_ifs <;> rfl

/-- The Up arrow at index 0 on page 0 is a no-op (no wraparound). -/
theorem up_at_origin_noop (c : MenuConfig) :
    stepState c ⟨0, 0⟩ ("\x1b[A") = (⟨0, 0⟩ : MenuState) := by
  rw [stepState_up]
  dsimp only
  rw [if_neg (by simp), if_neg (by simp)]

/-- The Down arrow at the last index of the last page is a no-op (no
wraparound). -/
theorem down_at_last_noop (c : MenuConfig) :
    stepState c ⟨c.total_items - 1, c.total_pages - 1⟩ ("\x1b[B")
      = (⟨c.total_items - 1, c.total_pages - 1⟩ : MenuState) := by
  rw [stepState_down]
  dsimp only
  rw [if_neg (by omega), if_neg (by omega)]

/-- C1 (counterexample): the raw byte sequence `0x1B 0x5B 0x35 0x7E`
(ESC [ 5 ~) does NOT decode to a PageDown key event in a single `get_key`
call, and no additional byte is read: `get_key` always reads exactly two
bytes after ESC, so it returns the three-byte string `ESC [ 5`, which the
controller's chain classifies as unrecognized, and the trailing `~` is left
in the stream. -/
theorem c1_pagedown_decoding_counterexample :
    decodeKey (get_key ['\x1b', '[', '5', '~']).1 ≠ KeyEvent.pageDown ∧
    (get_key ['\x1b', '[', '5', '~']).2 = ['~'] := by decide

/-- C1 (amended): `ESC [ A` decodes to Up in one `get_key` call.  A stream
beginning `0x1B 0x5B 0x35 0x7E` is read as exactly three bytes, yielding the
unrecognized key `ESC [ 5` and leaving `~` in the stream; no additional byte
is read when the third byte is a digit.  Moreover the controller's own
(unreachable) mapping assigns the four-byte string `ESC[5~` to PageUp, not
PageDown. -/
theorem c1_amended_escape_decoding (rest : List Char) :
    get_key ('\x1b' :: '[' :: 'A' :: rest) = ("\x1b[A", rest) ∧
    decodeKey ("\x1b[A") = KeyEvent.up ∧
    get_key ('\x1b' :: '[' :: '5' :: '~' :: rest) = ("\x1b[5", '~' :: rest) ∧
    decodeKey ("\x1b[5") = KeyEvent.unrecognized ∧
    decodeKey ("\x1b[5~") = KeyEvent.pageUp := by
  refine ⟨rfl, by decide, rfl, by decide, by decide⟩

/-- C2: for every call to `get_key`, the terminal attributes active before
the call are restored before the call returns or the exception propagates:
whatever the byte-read step does — return a key, raise an error, or even
change the attributes itself — the attributes after the call equal those
captured at its start (the `finally` block always runs `tcsetattr` with the
captured `old_settings`). -/
theorem c2_terminal_mode_restored {τ : Type} (setraw : τ → τ)
    (readStep : τ → Except String String × τ) (fdAttrs : τ) :
    (get_key_term setraw readStep fdAttrs).2 = fdAttrs := rfl

/-- C3: for every non-empty item list (with a positive requested page size)
and every finite sequence of key events from the initial state (index 0,
page 0), the selected index stays within `[0, total_items - 1]`; moreover
the menu never wraps past either end: Up at index 0 on page 0 and Down at
the last item of the last page are no-ops. -/
theorem c3_up_down_selected_index_bounds (items : List String) (paginate : Bool)
    (ipp : Int) (keys : List String) (hne : items ≠ []) (hipp : 0 < ipp) :
    (0 ≤ (runKeys (setupMenu paginate ipp items) ⟨0, 0⟩ keys).selected_index ∧
      (runKeys (setupMenu paginate ipp items) ⟨0, 0⟩ keys).selected_index
        ≤ (setupMenu paginate ipp items).total_items - 1) ∧
    stepState (setupMenu paginate ipp items) ⟨0, 0⟩ ("\x1b[A") = (⟨0, 0⟩ : MenuState) ∧
    stepState (setupMenu paginate ipp items)
        ⟨(setupMenu paginate ipp items).total_items - 1,
          (setupMenu paginate ipp items).total_pages - 1⟩ ("\x1b[B")
      = (⟨(setupMenu paginate ipp items).total_items - 1,
          (setupMenu paginate ipp items).total_pages - 1⟩ : MenuState) := by
  have hwf := setupMenu_wf paginate ipp items hne hipp
  exact ⟨menuInv_sel_bounds hwf (menuInv_runKeys hwf (menuInv_initial hwf) keys),
    up_at_origin_noop _, down_at_last_noop _⟩

/-- C3 witness at a concrete menu: three items, page size 2, a concrete
Down/Down/Up key sequence. -/
theorem c3_witness :
    ((["a", "b", "c"] : List String) ≠ [] ∧ (0 : Int) < 2) ∧
    ((0 ≤ (runKeys (setupMenu true 2 ["a", "b", "c"]) ⟨0, 0⟩
          ["\x1b[B", "\x1b[B", "\x1b[A"]).selected_index ∧
      (runKeys (setupMenu true 2 ["a", "b", "c"]) ⟨0, 0⟩
          ["\x1b[B", "\x1b[B", "\x1b[A"]).selected_index
        ≤ (setupMenu true 2 ["a", "b", "c"]).total_items - 1) ∧
    stepState (setupMenu true 2 ["a", "b", "c"]) ⟨0, 0⟩ ("\x1b[A") = (⟨0, 0⟩ : MenuState) ∧
    stepState (setupMenu true 2 ["a", "b", "c"])
        ⟨(setupMenu true 2 ["a", "b", "c"]).total_items - 1,
          (setupMenu true 2 ["a", "b", "c"]).total_pages - 1⟩ ("\x1b[B")
      = (⟨(setupMenu true 2 ["a", "b", "c"]).total_items - 1,
          (setupMenu true 2 ["a", "b", "c"]).total_pages - 1⟩ : MenuState)) :=
  ⟨⟨by decide, by decide⟩,
    c3_up_down_selected_index_bounds ["a", "b", "c"] true 2
      ["\x1b[B", "\x1b[B", "\x1b[A"] (by decide) (by decide)⟩

/-- C4: for every effectively paginated configuration (positive page size
smaller than the number of items) and every sequence of key events, the menu
invariant holds after every transition: the selected index lies within the
current page's range and the current page lies in `[0, total_pages)`, where
`total_pages` is the ceiling division `(total + ipp - 1) // ipp` (the last
two conjuncts are the two product bounds characterising the ceiling). -/
theorem c4_paginated_navigation_invariant (items : List String) (ipp : Int)
    (keys : List String) (hipp : 0 < ipp) (hlt : ipp < (items.length : Int)) :
    MenuInv (setupMenu true ipp items)
      (runKeys (setupMenu true ipp items) ⟨0, 0⟩ keys) ∧
    (setupMenu true ipp items).total_pages
      = ((items.length : Int) + ipp - 1).fdiv ipp ∧
    (setupMenu true ipp items).total_items
      ≤ (setupMenu true ipp items).total_pages * (setupMenu true ipp items).items_per_page ∧
    ((setupMenu true ipp items).total_pages - 1) * (setupMenu true ipp items).items_per_page
      < (setupMenu true ipp items).total_items := by
  have hne : items ≠ [] := by
    intro h
    subst h
    simp at hlt
    omega
  have hwf := setupMenu_wf true ipp items hne hipp
  have hcfg : (setupMenu true ipp items).total_pages
      = ((items.length : Int) + ipp - 1).fdiv ipp := by
    unfold setupMenu
    dsimp only
    rw [if_pos ⟨rfl, hlt⟩]
  exact ⟨menuInv_runKeys hwf (menuInv_initial hwf) keys, hcfg, hwf.2.2.1, hwf.2.2.2⟩

/-- C4 witness at a concrete menu: 25 items, page size 10, one Down followed
by one Page Down. -/
theorem c4_witness :
    ((0 : Int) < 10 ∧ (10 : Int) < ((List.replicate 25 "x").length : Int)) ∧
    (MenuInv (setupMenu true 10 (List.replicate 25 "x"))
      (runKeys (setupMenu true 10 (List.replicate 25 "x")) ⟨0, 0⟩
        ["\x1b[B", "\x1b[6~"]) ∧
    (setupMenu true 10 (List.replicate 25 "x")).total_pages
      = (((List.replicate 25 "x").length : Int) + 10 - 1).fdiv 10 ∧
    (setupMenu true 10 (List.replicate 25 "x")).total_items
      ≤ (setupMenu true 10 (List.replicate 25 "x")).total_pages
        * (setupMenu true 10 (List.replicate 25 "x")).items_per_page ∧
    ((setupMenu true 10 (List.replicate 25 "x")).total_pages - 1)
        * (setupMenu true 10 (List.replicate 25 "x")).items_per_page
      < (setupMenu true 10 (List.replicate 25 "x")).total_items) :=
  ⟨⟨by decide, by decide⟩,
    c4_paginated_navigation_invariant (List.replicate 25 "x") 10
      ["\x1b[B", "\x1b[6~"] (by decide) (by decide)⟩

/-- C5: when `total_items ≤ items_per_page`, pagination is force-disabled
even when requested: the effective configuration has `paginate = false`,
`items_per_page = total_items` and exactly one page, and Page Down / Page Up
key events leave every state unchanged. -/
theorem c5_pagination_force_disabled (items : List String) (ipp : Int)
    (s : MenuState) (hle : (items.length : Int) ≤ ipp) :
    setupMenu true ipp items
      = ⟨(items.length : Int), false, (items.length : Int), 1⟩ ∧
    stepState (setupMenu true ipp items) s ("\x1b[6~") = s ∧
    stepState (setupMenu true ipp items) s ("\x1b[5~") = s := by
  have hcfg : setupMenu true ipp items
      = ⟨(items.length : Int), false, (items.length : Int), 1⟩ := by
    have hcon : ¬(true = true ∧ ((items.length : Int) > ipp)) := by
      rintro ⟨-, h2⟩
      omega
    unfold setupMenu
    dsimp only
    rw [if_neg hcon]
  refine ⟨hcfg, ?_, ?_⟩
  · rw [hcfg, stepState_pageDown]
    simp
  · rw [hcfg, stepState_pageUp]
    simp

/-- C5 witness: five items with requested page size 10 and pagination
requested, at the concrete state (index 3, page 0). -/
theorem c5_witness :
    (((["a", "b", "c", "d", "e"] : List String).length : Int) ≤ 10) ∧
    (setupMenu true 10 ["a", "b", "c", "d", "e"]
      = ⟨((["a", "b", "c", "d", "e"] : List String).length : Int), false,
          ((["a", "b", "c", "d", "e"] : List String).length : Int), 1⟩ ∧
    stepState (setupMenu true 10 ["a", "b", "c", "d", "e"]) ⟨3, 0⟩ ("\x1b[6~")
      = (⟨3, 0⟩ : MenuState) ∧
    stepState (setupMenu true 10 ["a", "b", "c", "d", "e"]) ⟨3, 0⟩ ("\x1b[5~")
      = (⟨3, 0⟩ : MenuState)) :=
  ⟨by decide, c5_pagination_force_disabled ["a", "b", "c", "d", "e"] 10 ⟨3, 0⟩ (by decide)⟩

/-- C6 (counterexample): on the Quit key `q`, the menu loop does not return
control to the caller — it ends the process itself: at a concrete
configuration and state the step evaluates to a process exit with status 0
(the embedding of `sys.exit(0)` on line 140), after printing the farewell
line. -/
theorem c6_quit_returns_counterexample :
    menuStep ⟨5, false, 5, 1⟩ ⟨0, 0⟩ ("q") = StepResult.exitProcess (["Goodbye!"]) 0 ∧
    endsProcess (menuStep ⟨5, false, 5, 1⟩ ⟨0, 0⟩ ("q")) = true := by decide

/-- C6 (amended): on a Quit key event (`q` or the interrupt byte 0x03), the
menu terminates with no selected index by printing the farewell line
`Goodbye!` and ending the process itself with exit status 0 (`sys.exit(0)`),
rather than returning a Quit result to the caller. -/
theorem c6_amended_quit_exits_process (c : MenuConfig) (s : MenuState) :
    menuStep c s ("q") = StepResult.exitProcess (["Goodbye!"]) 0 ∧
    menuStep c s ("\x03") = StepResult.exitProcess (["Goodbye!"]) 0 := ⟨rfl, rfl⟩

/-- C7 (counterexample): when the input stream is exhausted, `get_key` does
not fail with an `InputUnavailable` error — it returns the empty key string
(Python's `read` returns `""` at end of file) — and the controller does not
treat it as a Quit: at a concrete configuration and state the loop continues
with the state unchanged, i.e. the menu keeps iterating. -/
theorem c7_input_unavailable_counterexample :
    get_key [] = ("", []) ∧
    menuStep ⟨5, false, 5, 1⟩ ⟨0, 0⟩ ((get_key []).1)
      = StepResult.cont ⟨0, 0⟩ := by decide

/-- C7 (amended): if the underlying input stream is at end of file,
`get_key` returns the empty key string and no error; the controller's chain
matches none of its branches, so the loop continues with the state
unchanged — iterating it any number of times never terminates the menu. -/
theorem c7_amended_eof_keeps_looping (c : MenuConfig) (s : MenuState) (n : Nat) :
    get_key [] = ("", []) ∧
    menuStep c s ((get_key []).1) = StepResult.cont s ∧
    (fun s0 => stepState c s0 ((get_key []).1))^[n] s = s :=
  ⟨rfl, rfl, Function.iterate_fixed rfl n⟩

/-- C8: the boundary no-ops are idempotent: applying the Up transition any
number of times at index 0 / page 0 leaves the state unchanged, and applying
the Down transition any number of times at the last index of the last page
leaves the state unchanged. -/
theorem c8_boundary_noops_idempotent (items : List String) (paginate : Bool)
    (ipp : Int) (n : Nat) (hne : items ≠ []) (hipp : 0 < ipp) :
    (fun s => stepState (setupMenu paginate ipp items) s ("\x1b[A"))^[n] ⟨0, 0⟩
      = (⟨0, 0⟩ : MenuState) ∧
    (fun s => stepState (setupMenu paginate ipp items) s ("\x1b[B"))^[n]
        ⟨(setupMenu paginate ipp items).total_items - 1,
          (setupMenu paginate ipp items).total_pages - 1⟩
      = (⟨(setupMenu paginate ipp items).total_items - 1,
          (setupMenu paginate ipp items).total_pages - 1⟩ : MenuState) :=
  ⟨Function.iterate_fixed (up_at_origin_noop _) n,
    Function.iterate_fixed (down_at_last_noop _) n⟩

/-- C8 witness: a concrete two-item menu, iterating each boundary no-op three
times. -/
theorem c8_witness :
    ((["a", "b"] : List String) ≠ [] ∧ (0 : Int) < 10) ∧
    ((fun s => stepState (setupMenu false 10 ["a", "b"]) s ("\x1b[A"))^[3] ⟨0, 0⟩
      = (⟨0, 0⟩ : MenuState) ∧
    (fun s => stepState (setupMenu false 10 ["a", "b"]) s ("\x1b[B"))^[3]
        ⟨(setupMenu false 10 ["a", "b"]).total_items - 1,
          (setupMenu false 10 ["a", "b"]).total_pages - 1⟩
      = (⟨(setupMenu false 10 ["a", "b"]).total_items - 1,
          (setupMenu false 10 ["a", "b"]).total_pages - 1⟩ : MenuState)) :=
  ⟨⟨by decide, by decide⟩,
    c8_boundary_noops_idempotent ["a", "b"] false 10 3 (by decide) (by decide)⟩

/-- C9: whenever at least three characters are available, a `get_key` call
returns either a single character or exactly three characters beginning with
the escape byte; it consumes one or three characters, never a fourth, so
after a stream beginning `ESC [ 5 ~` the trailing `~` remains and is
returned as the key of the following `get_key` call. -/
theorem c9_get_key_never_reads_fourth_byte (s rest : List Char) (h : 3 ≤ s.length) :
    ((get_key s).1.length = 1 ∨
      ((get_key s).1.length = 3 ∧ (get_key s).1.data.head? = some '\x1b')) ∧
    ((get_key s).2 = s.drop 1 ∨ (get_key s).2 = s.drop 3) ∧
    get_key (get_key ('\x1b' :: '[' :: '5' :: '~' :: rest)).2 = ("~", rest) := by
  rcases s with _ | ⟨a, _ | ⟨b, _ | ⟨c, t⟩⟩⟩
  · simp at h
  · simp at h
  · simp at h
  · refine ⟨?_, ?_, rfl⟩
    · by_cases ha : a = '\x1b'
      · subst ha
        exact Or.inr ⟨rfl, rfl⟩
      · refine Or.inl ?_
        unfold get_key
        dsimp only
        rw [if_neg (by simp [ha])]
        rfl
    · by_cases ha : a = '\x1b'
      · subst ha
        exact Or.inr rfl
      · refine Or.inl ?_
        unfold get_key
        dsimp only
        rw [if_neg (by simp [ha])]

/-- C9 witness at the concrete stream `ESC [ 5 ~`. -/
theorem c9_witness :
    3 ≤ (['\x1b', '[', '5', '~'] : List Char).length ∧
    (((get_key ['\x1b', '[', '5', '~']).1.length = 1 ∨
      ((get_key ['\x1b', '[', '5', '~']).1.length = 3 ∧
        (get_key ['\x1b', '[', '5', '~']).1.data.head? = some '\x1b')) ∧
    ((get_key ['\x1b', '[', '5', '~']).2 = (['\x1b', '[', '5', '~'] : List Char).drop 1 ∨
      (get_key ['\x1b', '[', '5', '~']).2 = (['\x1b', '[', '5', '~'] : List Char).drop 3) ∧
    get_key (get_key ('\x1b' :: '[' :: '5' :: '~' :: ([] : List Char))).2
      = ("~", ([] : List Char))) :=
  ⟨by decide, c9_get_key_never_reads_fourth_byte ['\x1b', '[', '5', '~'] [] (by decide)⟩

/-- Every element of the sorted triple list built inside `get_conversations`
carries its file's modification time as its third component. -/
theorem conv_triples_mtime (dateStr : Int → List Char) (files : List ConvFile) :
    ∀ x : List Char × ConvFile × Int,
      x ∈ ((files.filter (fun f => !(List.isPrefixOf ((".").data) f.name))).map
        (fun f => (dateStr f.mtime ++ (" - ").data ++ f.name, f, f.mtime))).insertionSort
          byMtimeDesc →
      x.2.2 = x.2.1.mtime := by
  intro x hx
  have hx2 := (List.perm_insertionSort byMtimeDesc _).subset hx
  obtain ⟨f, hf, rfl⟩ := List.mem_map.mp hx2
  rfl

/-- Mapping a sorted-by-mtime triple list to (label, file) pairs yields a
list whose adjacent entries have non-increasing modification times. -/
theorem sorted_triples_adjacent_mtime (l : List (List Char × ConvFile × Int))
    (hmem : ∀ x ∈ l, x.2.2 = x.2.1.mtime) (hs : List.Sorted byMtimeDesc l)
    (j : Nat)
    (hj : j + 1 < (l.map (fun x : List Char × ConvFile × Int => (x.1, x.2.1))).length) :
    ((l.map (fun x : List Char × ConvFile × Int => (x.1, x.2.1))).get ⟨j + 1, hj⟩).2.mtime
      ≤ ((l.map (fun x : List Char × ConvFile × Int => (x.1, x.2.1))).get
          ⟨j, Nat.lt_of_succ_lt hj⟩).2.mtime := by
  have hj1 : j + 1 < l.length := by simpa using hj
  have hj0 : j < l.length := Nat.lt_of_succ_lt hj1
  have hrel := List.Sorted.rel_get_of_lt hs
    (show (⟨j, hj0⟩ : Fin l.length) < ⟨j + 1, hj1⟩ from Fin.mk_lt_mk.mpr (Nat.lt_succ_self j))
  have e1 := hmem (l.get ⟨j + 1, hj1⟩) (l.get_mem _ _)
  have e0 := hmem (l.get ⟨j, hj0⟩) (l.get_mem _ _)
  unfold byMtimeDesc at hrel
  have goal2 : (l.get ⟨j + 1, hj1⟩).2.1.mtime ≤ (l.get ⟨j, hj0⟩).2.1.mtime := by
    rw [← e1, ← e0]
    exact hrel
  simpa using goal2

/-- C10: `get_conversations` returns the session list sorted by modification
time in descending order (newest first): every pair of adjacent entries in
the returned list satisfies `mtime(earlier) ≥ mtime(later)`. -/
theorem c10_conversations_sorted_newest_first (dateStr : Int → List Char)
    (files : List ConvFile) (i : Nat)
    (h : i + 1 < (get_conversations dateStr files).length) :
    ((get_conversations dateStr files).get ⟨i + 1, h⟩).2.mtime
      ≤ ((get_conversations dateStr files).get ⟨i, Nat.lt_of_succ_lt h⟩).2.mtime :=
  sorted_triples_adjacent_mtime _ (conv_triples_mtime dateStr files)
    (List.sorted_insertionSort byMtimeDesc _) i h

/-- C10 witness: two concrete files with modification times 5 and 9; the
returned list puts the newer one first. -/
theorem c10_witness :
    0 + 1 < (get_conversations (fun _ => ['t']) [⟨['b'], 5⟩, ⟨['a'], 9⟩]).length ∧
    ((get_conversations (fun _ => ['t']) [⟨['b'], 5⟩, ⟨['a'], 9⟩]).get
        ⟨0 + 1, by decide⟩).2.mtime
      ≤ ((get_conversations (fun _ => ['t']) [⟨['b'], 5⟩, ⟨['a'], 9⟩]).get
        ⟨0, by decide⟩).2.mtime :=
  ⟨by decide, c10_conversations_sorted_newest_first (fun _ => ['t']) [⟨['b'], 5⟩, ⟨['a'], 9⟩] 0
    (by decide)⟩

end ClaudeHistory
